import Mathlib

/-!
# Verification of the picTaging tag/export core

Shallow embedding of the picTaging application core:

* the unique-filename generator and batch export pipeline of
  `src/app/index.tsx` (`generateUniqueFileName`, `exportImages`), and
* the tag selection / catalog operations of the tag modal components
  (`addTimeTag`, `toggleTag`, `handleSave`, `deleteTag`).

JavaScript strings are Lean `String`s, `Date.now()` is an explicit `Nat`
parameter, the `Set` of used names is a `List String` used only through
membership, and the asynchronous filesystem / media-library collaborators
are modelled by an explicit environment recording which calls succeed.
-/

namespace PicTaging

/-! ## Decimal representation: `Nat.repr` is injective

The filename deduplication loop builds candidates `base_1`, `base_2`, …
with JavaScript template interpolation, i.e. decimal rendering of the
counter.  To know the loop terminates at the first free suffix we prove
that decimal rendering is injective, via an explicit left inverse.
-/

/-- Decimal value of a digit character. -/
def digitVal (c : Char) : Nat := c.toNat - 48

/-- Step function folding a decimal digit into an accumulator. -/
def decStep (acc : Nat) (c : Char) : Nat := acc * 10 + digitVal c

/-- Decimal value of a character list, most significant digit first. -/
def decVal (l : List Char) : Nat := l.foldl decStep 0

/-! ## Data model

Embeds the TypeScript interfaces shared by `src/app/index.tsx` and the
tag-modal components.  Optional fields (`groupId?`, `isTimeTag?`) become
`Option`s; JavaScript truthiness of `isTimeTag` is `Tag.isTime`.
-/

/-- `interface Tag { id: string; name: string; groupId?: string; isTimeTag?: boolean }` -/
structure Tag where
  id : String
  name : String
  groupId : Option String := none
  isTimeTag : Option Bool := none
deriving DecidableEq

/-- Truthiness of the optional `isTimeTag` field (`undefined`/`false` are falsy). -/
def Tag.isTime (t : Tag) : Bool := t.isTimeTag.getD false

/-- `interface TagGroup { id: string; name: string; tags: Tag[] }` -/
structure TagGroup where
  id : String
  name : String
  tags : List Tag
deriving DecidableEq

/-- `interface ImageItem { id: string; uri: string; tags: Tag[] }` -/
structure ImageItem where
  id : String
  uri : String
  tags : List Tag
deriving DecidableEq

/-! ## Unique filename generation (`generateUniqueFileName`, src/app/index.tsx:107-126)

The JavaScript function receives the tag list and the mutable `Set` of
used names (plus, implicitly, the clock).  The `Set` is modelled by a
`List String` accessed only through membership; the `while` loop is
modelled by a fuelled search, and we prove below that the fuel
`usedNames.length + 1` always suffices, so the model computes exactly the
first free suffix, as the loop does.
-/

/-- The candidate string tried for counter `k`:
JavaScript `` `${baseFileName}_${counter}` ``. -/
def nthCandidate (base : String) (k : Nat) : String := base ++ "_" ++ Nat.repr k

/-- The body of the `while (usedNames.has(fileName))` loop: starting from
`counter`, return the first candidate not in `used`, with enough `fuel`. -/
def searchFree (base : String) (used : List String) : Nat → Nat → String
  | counter, 0 => nthCandidate base counter
  | counter, fuel + 1 =>
    let cand := nthCandidate base counter
    if used.contains cand then searchFree base used (counter + 1) fuel else cand

/-- Deduplicate `base` against the used-name set: the `let fileName = baseFileName;
let counter = 1; while (usedNames.has(fileName)) { fileName = base_counter; counter++ }`
loop of `generateUniqueFileName`. -/
def dedupeName (base : String) (used : List String) : String :=
  if used.contains base then searchFree base used 1 (used.length + 1) else base

/-- `generateUniqueFileName(tags, usedNames)` (src/app/index.tsx:107-126).
Returns the generated name together with the updated used-name set;
`now` is the value of `Date.now()`.  Note the no-tags branch returns a
timestamp name WITHOUT touching the used-name set, exactly as the source
does. -/
def generateUniqueFileName (tags : List Tag) (usedNames : List String) (now : Nat) :
    String × List String :=
  if tags.isEmpty then ("image_" ++ Nat.repr now, usedNames)
  else
    let baseFileName := String.intercalate "_" (tags.map Tag.name)
    let fileName := dedupeName baseFileName usedNames
    (fileName, usedNames ++ [fileName])

/-- Tag-derived base name: `tags.map((tag) => tag.name).join("_")`. -/
def baseNameOf (tags : List Tag) : String :=
  String.intercalate "_" (tags.map Tag.name)

/-! ## Tag Selection Model (TagModal, src/unnamed/part_000)

`selectedTags` is the component state; each operation maps the current
list to the next one.  `String.trim` models JavaScript `trim()`.
-/

/-- JavaScript `String.prototype.trim`: strip leading and trailing
whitespace, modelled on the underlying character list. -/
def jsTrim (s : String) : String :=
  String.mk (((s.data.dropWhile Char.isWhitespace).reverse.dropWhile
    Char.isWhitespace).reverse)

/-- `addTimeTag` (src/unnamed/part_000:73-102).  `raw` is the `timeTag` text
field, `now` the value of `Date.now()`. -/
def addTimeTag (raw : String) (now : Nat) (selectedTags : List Tag) : List Tag :=
  if (jsTrim raw).isEmpty then selectedTags
  else
    let timeTagObject : Tag :=
      { id := "time-" ++ Nat.repr now, name := raw, isTimeTag := some true }
    match selectedTags.findIdx? Tag.isTime with
    | some i => selectedTags.set i timeTagObject
    | none => selectedTags ++ [timeTagObject]

/-- `toggleTag(groupId, tag)` (src/unnamed/part_000:104-113). -/
def toggleTag (groupId : String) (tag : Tag) (selectedTags : List Tag) : List Tag :=
  if selectedTags.any (fun t => t.id == tag.id) then
    selectedTags.filter (fun t => t.id != tag.id)
  else
    selectedTags ++ [{ tag with groupId := some groupId }]

/-- Whether some selected tag carries the given id
(`selectedTags.some((t) => t.id === tag.id)`). -/
def hasId (i : String) (selectedTags : List Tag) : Bool :=
  selectedTags.any (fun t => t.id == i)

/-- A sequence of `toggleTag` calls, applied left to right. -/
def applyToggles (calls : List (String × Tag)) (selectedTags : List Tag) : List Tag :=
  calls.foldl (fun s c => toggleTag c.1 c.2 s) selectedTags

/-- The comparator passed to `selectedTags.sort` in `handleSave`
(src/unnamed/part_000:115-129).  `lc` abstracts
`a.name.localeCompare(b.name, "zh-CN")`. -/
def cmpTag (lc : String → String → Int) (a b : Tag) : Int :=
  if a.isTime && !b.isTime then -1
  else if !a.isTime && b.isTime then 1
  else lc a.name b.name

/-- `handleSave`'s sort of `selectedTags`: JavaScript `Array.prototype.sort`
with a consistent comparator is a stable sort, modelled by `List.mergeSort`
with the comparator's non-positive relation. -/
def handleSave (lc : String → String → Int) (selectedTags : List Tag) : List Tag :=
  selectedTags.mergeSort (fun a b => decide (cmpTag lc a b ≤ 0))

/-! ## Tag Catalog (`deleteTag`, src/unnamed/part_001:191-219)

The confirmed branch of `deleteTag` updates the group collection and the
selection; the image collection (held by the home screen) is untouched.
-/

/-- Combined application state relevant to catalog deletion. -/
structure AppState where
  tagGroups : List TagGroup
  selectedTags : List Tag
  images : List ImageItem
deriving DecidableEq

/-- The confirmed branch of `deleteTag(groupId, tagId)`. -/
def deleteTag (groupId tagId : String) (st : AppState) : AppState :=
  { st with
    tagGroups := st.tagGroups.map fun g =>
      if g.id == groupId then
        { g with tags := g.tags.filter (fun t => t.id != tagId) }
      else g
    selectedTags := st.selectedTags.filter fun t => t.id != tagId }

/-! ## Export pipeline (`exportImages`, src/app/index.tsx:128-252)

The asynchronous collaborators are modelled by an environment `Env`
recording which calls succeed (a thrown promise rejection is a `false`):

* `FileSystem.copyAsync` success is keyed by the source uri,
* `MediaLibrary.createAssetAsync` success is keyed by the staged content
  (which always equals the source uri of the preceding copy),
* `FileSystem.deleteAsync` success is keyed by the path being deleted,
* `MediaLibrary.createAlbumAsync` success and the permission and the
  album-existence answers are plain booleans,
* `MediaLibrary.addAssetsToAlbumAsync` success is keyed by the batch.

The cache filesystem is an association list path ↦ staged content, the
library a list of created assets, the `picTaging` album an optional asset
list (`none` = absent).
-/

/-- A media-library asset created from a staged file. -/
structure Asset where
  path : String
  content : String
deriving DecidableEq

/-- Success/failure oracle for the device collaborators, plus the clock. -/
structure Env where
  permGranted : Bool
  albumExists : Bool
  copyOk : String → Bool
  createOk : String → Bool
  deleteOk : String → Bool
  albumCreateOk : Bool
  addOk : List Asset → Bool
  now : Nat

/-- `FileSystem.cacheDirectory`. -/
def cacheDirectory : String := "cache/"

/-- Write a staged file (copy target overwrites any previous file at the path). -/
def fsInsert (p v : String) (fs : List (String × String)) : List (String × String) :=
  (p, v) :: fs.filter (fun e => e.1 != p)

/-- Content of the staged file at a path, if any. -/
def fsLookup (fs : List (String × String)) (p : String) : Option String :=
  (fs.find? (fun e => e.1 == p)).map Prod.snd

/-- `FileSystem.deleteAsync(p, { idempotent: true })`. -/
def fsRemove (p : String) (fs : List (String × String)) : List (String × String) :=
  fs.filter (fun e => e.1 != p)

/-- Mutable state threaded through one `exportImages` invocation. -/
structure MState where
  fs : List (String × String)
  assets : List Asset
  album : Option (List Asset)
  usedNames : List String
  processedCount : Nat
  batches : List (List Asset)
deriving DecidableEq

/-- How one `exportImages` invocation ended. -/
inductive ExportStatus
  | emptyInput
  | permissionDenied
  | albumFailed
  | completed
deriving DecidableEq

/-- Result of the pipeline: the `{exportedCount, totalCount}` contract plus
the final device state. -/
structure ExportOutcome where
  status : ExportStatus
  exportedCount : Nat
  totalCount : Nat
  final : MState
deriving DecidableEq

/-- State at the start of an invocation. -/
def initState (env : Env) : MState :=
  { fs := [], assets := [],
    album := if env.albumExists then some [] else none,
    usedNames := [], processedCount := 0, batches := [] }

/-- Body of the per-image `try { … } catch { continue }` block
(src/app/index.tsx:200-221): generate a name, stage, create the asset,
delete the staging file, count.  Returns the new state and the asset
pushed onto `batchAssets`, if any.  A failed call throws into the local
catch, so every later statement of the block is skipped — in particular a
`createAssetAsync` failure skips the `deleteAsync` cleanup. -/
def processImage (env : Env) (img : ImageItem) (st : MState) : MState × Option Asset :=
  let r := generateUniqueFileName img.tags st.usedNames env.now
  let st1 := { st with usedNames := r.2 }
  let tempFile := cacheDirectory ++ r.1 ++ ".jpg"
  if env.copyOk img.uri then
    let st2 := { st1 with fs := fsInsert tempFile img.uri st1.fs }
    if env.createOk img.uri then
      let asset : Asset := { path := tempFile, content := (fsLookup st2.fs tempFile).getD "" }
      let st3 := { st2 with assets := st2.assets ++ [asset] }
      if env.deleteOk tempFile then
        ({ st3 with fs := fsRemove tempFile st3.fs,
                    processedCount := st3.processedCount + 1 }, some asset)
      else (st3, some asset)
    else (st2, none)
  else (st1, none)

/-- The staging pass over one batch: the `for (const img of batchImages)`
loop, accumulating `batchAssets` in order. -/
def stageBatch (env : Env) : List ImageItem → MState → MState × List Asset
  | [], st => (st, [])
  | img :: rest, st =>
    let r := processImage env img st
    let s := stageBatch env rest r.1
    (s.1, r.2.toList ++ s.2)

/-- Whether both the staging copy and the asset creation succeed for an
image in the given environment: exactly the images that survive the
per-image `try` block. -/
def imgOk (env : Env) (img : ImageItem) : Bool :=
  env.copyOk img.uri && env.createOk img.uri

/-- One iteration of the batch loop (src/app/index.tsx:193-237): stage the
batch, then bulk-attach the collected assets to the album; an attach
failure is caught and logged. -/
def processBatch (env : Env) (batch : List ImageItem) (st : MState) : MState :=
  let r := stageBatch env batch st
  let st1 := { r.1 with batches := r.1.batches ++ [r.2] }
  if r.2.isEmpty then st1
  else if env.addOk r.2 then { st1 with album := st1.album.map (· ++ r.2) }
  else st1

/-- Fuelled chunking helper; with `k ≠ 0` a fuel of `l.length` suffices,
so the fuel never runs out on the argument `chunksOf` passes. -/
def chunksOfAux (k : Nat) : Nat → List α → List (List α)
  | _, [] => []
  | 0, _ :: _ => []
  | fuel + 1, x :: xs => (x :: xs).take k :: chunksOfAux k fuel ((x :: xs).drop k)

/-- Contiguous slices of size `k`: the `images.slice(startIndex, endIndex)`
partition produced by the batch loop. -/
def chunksOf (k : Nat) (l : List α) : List (List α) := chunksOfAux k l.length l

/-- The album-creation block (src/app/index.tsx:166-190): stage `images[0]`
to `album_init.jpg`, create an asset from it, create the album seeded with
that asset, delete the staging file.  Any throw lands in the surrounding
catch and the export aborts; the returned flag records success. -/
def seedAlbum (env : Env) (firstUri : String) (st : MState) : MState × Bool :=
  let tempFile := cacheDirectory ++ "album_init.jpg"
  if env.copyOk firstUri then
    let st1 := { st with fs := fsInsert tempFile firstUri st.fs }
    if env.createOk firstUri then
      let seed : Asset := { path := tempFile, content := (fsLookup st1.fs tempFile).getD "" }
      let st2 := { st1 with assets := st1.assets ++ [seed] }
      if env.albumCreateOk then
        let st3 := { st2 with album := some [seed] }
        if env.deleteOk tempFile then
          ({ st3 with fs := fsRemove tempFile st3.fs }, true)
        else (st3, false)
      else (st2, false)
    else (st1, false)
  else (st, false)

/-- The batch loop followed by the success toast. -/
def runBatches (env : Env) (images : List ImageItem) (st : MState) : ExportOutcome :=
  let stF := (chunksOf 10 images).foldl (fun s b => processBatch env b s) st
  { status := .completed, exportedCount := stF.processedCount,
    totalCount := images.length, final := stF }

/-- `exportImages` (src/app/index.tsx:128-252). -/
def exportImages (env : Env) (images : List ImageItem) : ExportOutcome :=
  if images.isEmpty then
    { status := .emptyInput, exportedCount := 0, totalCount := 0,
      final := initState env }
  else if !env.permGranted then
    { status := .permissionDenied, exportedCount := 0, totalCount := images.length,
      final := initState env }
  else if env.albumExists then
    runBatches env images (initState env)
  else
    let r := seedAlbum env ((images.head?.map ImageItem.uri).getD "") (initState env)
    if r.2 then runBatches env images r.1
    else
      { status := .albumFailed, exportedCount := 0, totalCount := images.length,
        final := r.1 }

/-! ## Concrete fixtures used by witnesses and counterexamples -/

/-- The catalog tag named `Mom`. -/
def momTag : Tag := { id := "t1", name := "Mom" }

/-- A concrete locale comparison used in witnesses: the lexicographic
order on strings, returning `-1` or `1`. -/
def lcFix (a b : String) : Int := if a ≤ b then -1 else 1

/-- An environment in which every collaborator call succeeds. -/
def envAllOk : Env :=
  { permGranted := true, albumExists := true,
    copyOk := fun _ => true, createOk := fun _ => true, deleteOk := fun _ => true,
    albumCreateOk := true, addOk := fun _ => true, now := 0 }

/-! ## Theorems

Everything below is stated about the definitions above.  We first prove
the supporting lemmas (decimal injectivity, the deduplication-loop
characterisation), then settle the claims.
-/

theorem digitVal_digitChar : ∀ m : Nat, m < 10 → digitVal (Nat.digitChar m) = m := by
  decide
theorem foldl_toDigitsCore (fuel : Nat) :
    ∀ (n : Nat) (ds : List Char), n < 10 ^ fuel →
      (Nat.toDigitsCore 10 fuel n ds).foldl decStep 0 = ds.foldl decStep n := by
  induction fuel with
  | zero =>
    intro n ds hn
    have hn0 : n = 0 := by simpa using hn
    simp [Nat.toDigitsCore, hn0]
  | succ fuel ih =>
    intro n ds hn
    have hd : digitVal (Nat.digitChar (n % 10)) = n % 10 :=
      digitVal_digitChar _ (Nat.mod_lt _ (by omega))
    by_cases h0 : n / 10 = 0
    · have hlt : n < 10 := by omega
      have hmod : n % 10 = n := Nat.mod_eq_of_lt hlt
      rw [hmod] at hd
      simp [Nat.toDigitsCore, h0, decStep, hd, hmod]
    · have hdiv : n / 10 < 10 ^ fuel := by
        rw [Nat.div_lt_iff_lt_mul (by norm_num)]
        calc n < 10 ^ (fuel + 1) := hn
        _ = 10 ^ fuel * 10 := by ring
      have hrec := ih (n / 10) (Nat.digitChar (n % 10) :: ds) hdiv
      have hsplit : (n / 10) * 10 + n % 10 = n := by omega
      simp only [Nat.toDigitsCore, h0, if_false]
      rw [hrec]
      simp [decStep, hd, hsplit]
theorem decVal_repr (n : Nat) : decVal (Nat.repr n).data = n := by
  have hlt : n < 10 ^ (n + 1) := by
    calc n < 10 ^ n := Nat.lt_pow_self (by norm_num) n
    _ ≤ 10 ^ (n + 1) := Nat.pow_le_pow_right (by norm_num) (Nat.le_succ n)
  have h := foldl_toDigitsCore (n + 1) n [] hlt
  simpa [Nat.repr, Nat.toDigits, List.asString, decVal] using h
theorem repr_injective : Function.Injective Nat.repr := by
  intro m n h
  have hm := decVal_repr m
  rw [h, decVal_repr] at hm
  exact hm.symm
theorem nthCandidate_injective (base : String) :
    Function.Injective (nthCandidate base) := by
  intro j k h
  apply repr_injective
  apply String.ext
  have hd := congrArg String.data h
  simpa [nthCandidate, String.data_append] using hd
/-- Among the first `used.length + 1` candidates some name is unused
(pigeonhole via injectivity of the candidates). -/
theorem exists_free_candidate (base : String) (used : List String) :
    ∃ k, 1 ≤ k ∧ k ≤ used.length + 1 ∧ nthCandidate base k ∉ used := by
  by_contra hall
  push_neg at hall
  have hsub : (Finset.Icc 1 (used.length + 1)).image (nthCandidate base)
      ⊆ used.toFinset := by
    intro s hs
    rw [Finset.mem_image] at hs
    obtain ⟨k, hk, rfl⟩ := hs
    rw [Finset.mem_Icc] at hk
    rw [List.mem_toFinset]
    exact hall k hk.1 hk.2
  have hcard := Finset.card_le_card hsub
  rw [Finset.card_image_of_injective _ (nthCandidate_injective base), Nat.card_Icc]
  at hcard
  have hlen := used.toFinset_card_le
  omega
theorem searchFree_spec (base : String) (used : List String) :
    ∀ (fuel counter : Nat),
      (∃ k, counter ≤ k ∧ k < counter + fuel ∧ nthCandidate base k ∉ used) →
      ∃ k, counter ≤ k ∧ nthCandidate base k ∉ used ∧
        searchFree base used counter fuel = nthCandidate base k ∧
        ∀ j, counter ≤ j → j < k → nthCandidate base j ∈ used := by
  intro fuel
  induction fuel with
  | zero =>
    intro counter h
    obtain ⟨k, h1, h2, _⟩ := h
    omega
  | succ fuel ih =>
    intro counter h
    by_cases hc : used.contains (nthCandidate base counter)
    · have hcm : nthCandidate base counter ∈ used := by
        simpa using hc
      have h' : ∃ k, counter + 1 ≤ k ∧ k < counter + 1 + fuel ∧
          nthCandidate base k ∉ used := by
        obtain ⟨k, h1, h2, h3⟩ := h
        have hne : k ≠ counter := fun he => h3 (he ▸ hcm)
        exact ⟨k, by omega, by omega, h3⟩
      obtain ⟨k, hk1, hk2, hk3, hk4⟩ := ih (counter + 1) h'
      refine ⟨k, by omega, hk2, ?_, ?_⟩
      · simpa [searchFree, hcm] using hk3
      · intro j hj1 hj2
        by_cases hje : j = counter
        · exact hje ▸ hcm
        · exact hk4 j (by omega) hj2
    · have hcm : nthCandidate base counter ∉ used := by
        simpa using hc
      exact ⟨counter, Nat.le_refl _, hcm, by simp [searchFree, hcm],
        fun j h1 h2 => absurd (Nat.lt_of_le_of_lt h1 h2) (Nat.lt_irrefl counter)⟩
/-- The deduplication loop returns `base` itself when free, and otherwise the
candidate with the least free positive suffix. -/
theorem dedupeName_spec (base : String) (used : List String) :
    (base ∉ used → dedupeName base used = base) ∧
    (base ∈ used → ∃ k, 1 ≤ k ∧ nthCandidate base k ∉ used ∧
      dedupeName base used = nthCandidate base k ∧
      ∀ j, 1 ≤ j → j < k → nthCandidate base j ∈ used) := by
  constructor
  · intro hb
    simp [dedupeName, hb]
  · intro hb
    have hc : used.contains base := by simpa using hb
    obtain ⟨k, hk1, hk2, hk3⟩ := exists_free_candidate base used
    have hex : ∃ k, 1 ≤ k ∧ k < 1 + (used.length + 1) ∧
        nthCandidate base k ∉ used := ⟨k, hk1, by omega, hk3⟩
    obtain ⟨m, hm1, hm2, hm3, hm4⟩ := searchFree_spec base used (used.length + 1) 1 hex
    exact ⟨m, hm1, hm2, by simpa [dedupeName, hb] using hm3, hm4⟩

/-- The name returned by the deduplication loop is never already used. -/
theorem dedupeName_not_mem (base : String) (used : List String) :
    dedupeName base used ∉ used := by
  by_cases hb : base ∈ used
  · obtain ⟨k, _, hk2, hk3, _⟩ := (dedupeName_spec base used).2 hb
    rw [hk3]
    exact hk2
  · rw [(dedupeName_spec base used).1 hb]
    exact hb
/-- On a non-empty tag list the generator is the deduplication loop on the
joined tag names, with the result appended to the used-name set. -/
theorem gen_eq_of_ne_nil (tags : List Tag) (used : List String) (now : Nat)
    (h : tags ≠ []) :
    generateUniqueFileName tags used now
      = (dedupeName (baseNameOf tags) used,
         used ++ [dedupeName (baseNameOf tags) used]) := by
  cases tags with
  | nil => exact absurd rfl h
  | cons a as => simp [generateUniqueFileName, baseNameOf]

/-- For a tagged image the generated name is fresh and gets recorded. -/
theorem generateUniqueFileName_fresh (tags : List Tag) (used : List String)
    (now : Nat) (h : tags ≠ []) :
    (generateUniqueFileName tags used now).1 ∉ used ∧
    (generateUniqueFileName tags used now).2
      = used ++ [(generateUniqueFileName tags used now).1] := by
  rw [gen_eq_of_ne_nil tags used now h]
  exact ⟨dedupeName_not_mem _ used, rfl⟩

/-!
### C1 — first-unused-suffix naming
-/

/-- **C1.** Three images in order whose tag-derived base names are all
`"Mom"` are named `Mom`, `Mom_1`, `Mom_2` in input order; in general, when
the base name is already in the used-name set, the generator returns the
candidate with the first unused integer suffix `_1`, `_2`, …, and returns
the base name itself when it is not yet used. -/
theorem C1_first_unused_suffix (tags : List Tag) (used : List String) (now : Nat)
    (h : tags ≠ []) :
    ((generateUniqueFileName [momTag] [] now).1 = "Mom" ∧
     (generateUniqueFileName [momTag]
        (generateUniqueFileName [momTag] [] now).2 now).1 = "Mom_1" ∧
     (generateUniqueFileName [momTag]
        (generateUniqueFileName [momTag]
          (generateUniqueFileName [momTag] [] now).2 now).2 now).1 = "Mom_2") ∧
    (baseNameOf tags ∉ used →
      (generateUniqueFileName tags used now).1 = baseNameOf tags) ∧
    (baseNameOf tags ∈ used →
      ∃ k, 1 ≤ k ∧ nthCandidate (baseNameOf tags) k ∉ used ∧
        (generateUniqueFileName tags used now).1 = nthCandidate (baseNameOf tags) k ∧
        ∀ j, 1 ≤ j → j < k → nthCandidate (baseNameOf tags) j ∈ used) := by
  have e1 : generateUniqueFileName [momTag] [] now = ("Mom", ["Mom"]) := by
    rw [gen_eq_of_ne_nil _ _ _ (by simp)]
    decide
  have e2 : generateUniqueFileName [momTag] ["Mom"] now
      = ("Mom_1", ["Mom", "Mom_1"]) := by
    rw [gen_eq_of_ne_nil _ _ _ (by simp)]
    decide
  have e3 : generateUniqueFileName [momTag] ["Mom", "Mom_1"] now
      = ("Mom_2", ["Mom", "Mom_1", "Mom_2"]) := by
    rw [gen_eq_of_ne_nil _ _ _ (by simp)]
    decide
  refine ⟨by rw [e1]; rw [e2]; rw [e3]; exact ⟨rfl, rfl, rfl⟩, ?_, ?_⟩
  · intro hb
    rw [gen_eq_of_ne_nil _ _ _ h]
    exact (dedupeName_spec _ used).1 hb
  · intro hb
    obtain ⟨k, hk1, hk2, hk3, hk4⟩ := (dedupeName_spec (baseNameOf tags) used).2 hb
    refine ⟨k, hk1, hk2, ?_, hk4⟩
    rw [gen_eq_of_ne_nil _ _ _ h]
    exact hk3

/-- Witness for C1 at base name `"Mom"` against the used set `["Mom"]`. -/
theorem C1_first_unused_suffix_witness :
    baseNameOf [momTag] ∈ ["Mom"] ∧
    ∃ k, 1 ≤ k ∧ nthCandidate (baseNameOf [momTag]) k ∉ ["Mom"] ∧
      (generateUniqueFileName [momTag] ["Mom"] 0).1
        = nthCandidate (baseNameOf [momTag]) k ∧
      ∀ j, 1 ≤ j → j < k → nthCandidate (baseNameOf [momTag]) j ∈ ["Mom"] :=
  ⟨by decide,
   (C1_first_unused_suffix [momTag] ["Mom"] 0 (by decide)).2.2 (by decide)⟩

/-!
### C2 — recording of final names in the used-name set
-/

/-- **C2 counterexample.**  An image with no tags gets the timestamp-based
name, but that name is NOT recorded in the used-name set, and a second
untagged image processed at the same timestamp receives the identical name:
two calls of the generator in one invocation can return equal names. -/
theorem C2_recorded_names_counterexample :
    (generateUniqueFileName [] [] 7).1
      = (generateUniqueFileName [] (generateUniqueFileName [] [] 7).2 7).1 ∧
    (generateUniqueFileName [] [] 7).1 ∉ (generateUniqueFileName [] [] 7).2 := by
  decide

/-- **C2 (amended).**  Only for tagged images is the final name recorded in
the used-name set before output, and consequently two generator calls on
non-empty tag lists within one invocation return distinct names; an
untagged image receives `image_<timestamp>` and the used-name set is left
untouched. -/
theorem C2_tagged_names_recorded (tags1 tags2 : List Tag) (used : List String)
    (now1 now2 : Nat) (h1 : tags1 ≠ []) (h2 : tags2 ≠ []) :
    ((generateUniqueFileName tags1 used now1).1
        ∈ (generateUniqueFileName tags1 used now1).2) ∧
    ((generateUniqueFileName tags2 (generateUniqueFileName tags1 used now1).2 now2).1
        ≠ (generateUniqueFileName tags1 used now1).1) ∧
    (∀ (used' : List String) (now : Nat),
      (generateUniqueFileName [] used' now).1 = "image_" ++ Nat.repr now ∧
      (generateUniqueFileName [] used' now).2 = used') := by
  obtain ⟨hf1, he1⟩ := generateUniqueFileName_fresh tags1 used now1 h1
  obtain ⟨hf2, _⟩ := generateUniqueFileName_fresh tags2
    (generateUniqueFileName tags1 used now1).2 now2 h2
  have hmem : (generateUniqueFileName tags1 used now1).1
      ∈ (generateUniqueFileName tags1 used now1).2 := by
    rw [he1]
    simp
  refine ⟨hmem, fun he => hf2 (he ▸ hmem), ?_⟩
  intro used' now
  exact ⟨rfl, rfl⟩

/-- Witness for the amended C2 on two tagged calls. -/
theorem C2_tagged_names_recorded_witness :
    (generateUniqueFileName [momTag] [] 0).1
      ∈ (generateUniqueFileName [momTag] [] 0).2 ∧
    (generateUniqueFileName [momTag] (generateUniqueFileName [momTag] [] 0).2 0).1
      ≠ (generateUniqueFileName [momTag] [] 0).1 :=
  ⟨(C2_tagged_names_recorded [momTag] [momTag] [] 0 0 (by decide) (by decide)).1,
   (C2_tagged_names_recorded [momTag] [momTag] [] 0 0 (by decide) (by decide)).2.1⟩

/-!
### C9 — catalog `deleteTag` and the selection
-/

/-- **C9 counterexample.**  With `t1` of group `g1` selected alongside a
second tag `t2` of the same group, deleting `t1` removes only the tag with
id `t1` from the selection: a tag with `groupId = "g1"` remains, contrary
to the claimed group-wide cascade. -/
theorem C9_group_cascade_counterexample :
    (let st : AppState :=
      { tagGroups := [{ id := "g1", name := "Family",
                        tags := [{ id := "t1", name := "Mom" },
                                 { id := "t2", name := "Dad" }] }],
        selectedTags := [{ id := "t1", name := "Mom", groupId := some "g1" },
                         { id := "t2", name := "Dad", groupId := some "g1" }],
        images := [] }
     ((st.selectedTags.any fun t => t.id == "t1") = true ∧
      ((deleteTag "g1" "t1" st).selectedTags.any
        fun t => t.groupId == some "g1") = true)) := by
  decide

/-- **C9 (amended).**  `deleteTag(g1, t1)` removes from `selectedTags`
exactly the tags whose id is `t1` — other selected tags, including other
tags of the same group, survive — and the image collection (with its value
copies of `t1`) is untouched. -/
theorem C9_deleteTag_by_id (st : AppState) (groupId tagId : String) :
    (∀ t ∈ (deleteTag groupId tagId st).selectedTags, t.id ≠ tagId) ∧
    (∀ t ∈ st.selectedTags, t.id ≠ tagId →
      t ∈ (deleteTag groupId tagId st).selectedTags) ∧
    (deleteTag groupId tagId st).images = st.images := by
  refine ⟨?_, ?_, rfl⟩
  · intro t ht
    simp only [deleteTag] at ht
    rw [List.mem_filter] at ht
    simpa using ht.2
  · intro t ht hne
    simp only [deleteTag]
    rw [List.mem_filter]
    exact ⟨ht, by simpa using hne⟩

/-- Witness for the amended C9 at a concrete state. -/
theorem C9_deleteTag_by_id_witness :
    (deleteTag "g1" "t1"
      { tagGroups := [], selectedTags := [{ id := "t1", name := "Mom", groupId := some "g1" }],
        images := [{ id := "i1", uri := "u1", tags := [{ id := "t1", name := "Mom" }] }] }).images
      = [{ id := "i1", uri := "u1", tags := [{ id := "t1", name := "Mom" }] }] :=
  (C9_deleteTag_by_id
    { tagGroups := [], selectedTags := [{ id := "t1", name := "Mom", groupId := some "g1" }],
      images := [{ id := "i1", uri := "u1", tags := [{ id := "t1", name := "Mom" }] }] }
    "g1" "t1").2.2

/-!
### C8 — toggleTag parity
-/

/-- One `toggleTag` call on a tag with id `i` flips whether the selection
contains a tag with id `i`. -/
theorem hasId_toggleTag (i g : String) (t : Tag) (s : List Tag) (h : t.id = i) :
    hasId i (toggleTag g t s) = !hasId i s := by
  subst h
  cases hb : s.any (fun x => x.id == t.id) with
  | false =>
    have : hasId t.id s = false := hb
    simp [toggleTag, hb, hasId, this, List.any_append]
  | true =>
    have : hasId t.id s = true := hb
    rw [this]
    simp only [toggleTag, hb, if_true, Bool.not_true]
    rw [hasId, List.any_eq_false]
    intro x hx
    rw [List.mem_filter] at hx
    simpa using hx.2

/-- Membership of id `i` after a whole sequence of toggles of tags with
id `i` depends only on the parity of the number of calls. -/
theorem hasId_applyToggles (i : String) :
    ∀ (calls : List (String × Tag)) (s : List Tag),
      (∀ c ∈ calls, (c.2).id = i) →
      hasId i (applyToggles calls s)
        = if calls.length % 2 = 0 then hasId i s else !hasId i s := by
  intro calls
  induction calls with
  | nil =>
    intro s _
    simp [applyToggles]
  | cons c cs ih =>
    intro s hc
    have hflip := hasId_toggleTag i c.1 c.2 s (hc c (List.mem_cons_self c cs))
    have hrec := ih (toggleTag c.1 c.2 s) (fun x hx => hc x (List.mem_cons_of_mem c hx))
    have happ : applyToggles (c :: cs) s = applyToggles cs (toggleTag c.1 c.2 s) := rfl
    rw [happ, hrec, hflip]
    by_cases h2 : cs.length % 2 = 0
    · have h3 : ¬ (cs.length + 1) % 2 = 0 := by omega
      simp [h2, h3]
    · have h3 : (cs.length + 1) % 2 = 0 := by omega
      simp [h2, h3]

/-- **C8.**  A sequence of `toggleTag` calls on one tag id restores the
original membership of that id when the sequence has even length and flips
it when odd; a single call removes all tags carrying the id when present
and otherwise appends the tag stamped with the group id. -/
theorem C8_toggle_parity (s : List Tag) (i : String) (calls : List (String × Tag))
    (hc : ∀ c ∈ calls, (c.2).id = i) :
    (hasId i (applyToggles calls s)
        = if calls.length % 2 = 0 then hasId i s else !hasId i s) ∧
    (∀ g t, t.id = i →
      hasId i (toggleTag g t s) = !hasId i s ∧
      (hasId i s = false → toggleTag g t s = s ++ [{ t with groupId := some g }]) ∧
      (hasId i s = true → toggleTag g t s = s.filter fun x => x.id != i)) := by
  refine ⟨hasId_applyToggles i calls s hc, ?_⟩
  intro g t ht
  subst ht
  refine ⟨hasId_toggleTag t.id g t s rfl, ?_, ?_⟩
  · intro hfalse
    rw [hasId] at hfalse
    simp [toggleTag, hfalse]
  · intro htrue
    rw [hasId] at htrue
    simp [toggleTag, htrue]

/-- Witness for C8: an even-length sequence on an empty selection. -/
theorem C8_toggle_parity_witness :
    hasId "t1" (applyToggles [("g", momTag), ("g", momTag)] [])
      = if ([("g", momTag), ("g", momTag)] : List (String × Tag)).length % 2 = 0
        then hasId "t1" [] else !hasId "t1" [] :=
  (C8_toggle_parity [] "t1" [("g", momTag), ("g", momTag)] (by decide)).1

/-!
### C6 — addTimeTag keeps at most one time tag
-/

/-- If `findIdx?` finds no time tag, the time-tag filter is empty. -/
theorem filter_time_of_findIdx?_none (s : List Tag)
    (h : s.findIdx? Tag.isTime = none) : s.filter Tag.isTime = [] := by
  rw [List.findIdx?_eq_none_iff] at h
  rw [List.filter_eq_nil_iff]
  intro a ha
  simp [h a ha]

/-- Replacing the tag at the index found by `findIdx?` with a time tag `x`
leaves `x` as the only time tag, provided the invariant held before. -/
theorem filter_time_set_of_findIdx? (x : Tag) (hx : x.isTime = true) :
    ∀ (s : List Tag) (i : Nat), s.findIdx? Tag.isTime = some i →
      (s.filter Tag.isTime).length ≤ 1 →
      (s.set i x).filter Tag.isTime = [x] := by
  intro s
  induction s with
  | nil =>
    intro i h _
    simp at h
  | cons a as ih =>
    intro i h hc
    by_cases ha : a.isTime
    · have hi : i = 0 := by
        rw [List.findIdx?_cons, if_pos ha] at h
        exact (Option.some_inj.mp h).symm
      subst hi
      have hlen : (List.filter Tag.isTime (a :: as)).length
          = (as.filter Tag.isTime).length + 1 := by
        simp [List.filter_cons, ha]
      have hft : as.filter Tag.isTime = [] := by
        have h0 : (as.filter Tag.isTime).length = 0 := by omega
        exact List.length_eq_zero.mp h0
      simp [List.filter_cons, hx, hft]
    · have ha' : a.isTime = false := by
        simpa using ha
      rw [List.findIdx?_cons, if_neg ha, List.findIdx?_succ] at h
      rw [Option.map_eq_some'] at h
      obtain ⟨j, hj, hij⟩ := h
      subst hij
      have hc' : (as.filter Tag.isTime).length ≤ 1 := by
        simpa [List.filter_cons, ha'] using hc
      have := ih j hj hc'
      simpa [List.filter_cons, ha'] using this

/-- **C6.**  From a selection satisfying the exclusivity invariant,
`addTimeTag` keeps at most one time tag: a blank (whitespace-only) input
is a no-op; a non-blank input leaves exactly one time tag, namely the
freshly built object carrying the raw text as its name, replacing the
existing time tag in place at its index when one exists and being appended
otherwise. -/
theorem C6_addTimeTag_exclusive (s : List Tag) (raw : String) (now : Nat)
    (hinv : (s.filter Tag.isTime).length ≤ 1) :
    ((addTimeTag raw now s).filter Tag.isTime).length ≤ 1 ∧
    ((jsTrim raw).isEmpty = false →
      (addTimeTag raw now s).filter Tag.isTime
          = [{ id := "time-" ++ Nat.repr now, name := raw, isTimeTag := some true }] ∧
      (∀ i, s.findIdx? Tag.isTime = some i →
        addTimeTag raw now s
          = s.set i { id := "time-" ++ Nat.repr now, name := raw, isTimeTag := some true }) ∧
      (s.findIdx? Tag.isTime = none →
        addTimeTag raw now s
          = s ++ [{ id := "time-" ++ Nat.repr now, name := raw, isTimeTag := some true }])) ∧
    ((jsTrim raw).isEmpty = true → addTimeTag raw now s = s) := by
  by_cases hb : (jsTrim raw).isEmpty
  · have he : addTimeTag raw now s = s := by
      simp [addTimeTag, hb]
    refine ⟨by rw [he]; exact hinv, fun hc => absurd hb (by simp [hc]), fun _ => he⟩
  · have hb' : (jsTrim raw).isEmpty = false := by
      simpa using hb
    cases hf : s.findIdx? Tag.isTime with
    | none =>
      have hfe : s.filter Tag.isTime = [] := filter_time_of_findIdx?_none s hf
      have he : addTimeTag raw now s
          = s ++ [{ id := "time-" ++ Nat.repr now, name := raw, isTimeTag := some true }] := by
        simp [addTimeTag, hb', hf]
      have hft : (addTimeTag raw now s).filter Tag.isTime
          = [{ id := "time-" ++ Nat.repr now, name := raw, isTimeTag := some true }] := by
        rw [he, List.filter_append, hfe]
        simp [Tag.isTime]
      refine ⟨by rw [hft]; simp, fun _ => ⟨hft, ?_, fun _ => he⟩, fun hc => absurd hc (by simp [hb'])⟩
      intro i hi
      exact absurd hi (by simp)
    | some i =>
      have he : addTimeTag raw now s
          = s.set i { id := "time-" ++ Nat.repr now, name := raw, isTimeTag := some true } := by
        simp [addTimeTag, hb', hf]
      have hft : (addTimeTag raw now s).filter Tag.isTime
          = [{ id := "time-" ++ Nat.repr now, name := raw, isTimeTag := some true }] := by
        rw [he]
        exact filter_time_set_of_findIdx?
          { id := "time-" ++ Nat.repr now, name := raw, isTimeTag := some true }
          (by rfl) s i hf hinv
      refine ⟨by rw [hft]; simp, fun _ => ⟨hft, ?_, ?_⟩, fun hc => absurd hc (by simp [hb'])⟩
      · intro j hj
        rw [← Option.some_inj.mp hj]
        exact he
      · intro hn
        exact absurd hn (by simp)

/-- Witness for C6: replacing an existing time tag in place. -/
theorem C6_addTimeTag_exclusive_witness :
    (addTimeTag "2024-06" 2
        [{ id := "time-1", name := "old", isTimeTag := some true }, momTag]).filter Tag.isTime
      = [{ id := "time-" ++ Nat.repr 2, name := "2024-06", isTimeTag := some true }] :=
  ((C6_addTimeTag_exclusive
      [{ id := "time-1", name := "old", isTimeTag := some true }, momTag]
      "2024-06" 2 (by decide)).2.1 (by decide)).1

/-!
### C7 — commit hands over a sorted sequence
-/

/-- The comparator's non-positive relation is transitive whenever the
abstract locale comparison is. -/
theorem cmpTag_le_trans (lc : String → String → Int)
    (htrans : ∀ a b c, lc a b ≤ 0 → lc b c ≤ 0 → lc a c ≤ 0) :
    ∀ a b c : Tag, cmpTag lc a b ≤ 0 → cmpTag lc b c ≤ 0 → cmpTag lc a c ≤ 0 := by
  intro a b c hab hbc
  by_cases ha : a.isTime <;> by_cases hb : b.isTime <;> by_cases hc : c.isTime <;>
    simp only [cmpTag, ha, hb, hc, Bool.true_and, Bool.false_and, Bool.and_true,
      Bool.and_false, Bool.not_true, Bool.not_false, if_true, if_false,
      Bool.and_self, ite_true, ite_false] at hab hbc ⊢ <;>
    first
      | decide
      | exact htrans _ _ _ hab hbc
      | exact absurd hab (by decide)
      | exact absurd hbc (by decide)

/-- The comparator's non-positive relation is total whenever the abstract
locale comparison is. -/
theorem cmpTag_le_total (lc : String → String → Int)
    (htotal : ∀ a b, lc a b ≤ 0 ∨ lc b a ≤ 0) :
    ∀ a b : Tag, cmpTag lc a b ≤ 0 ∨ cmpTag lc b a ≤ 0 := by
  intro a b
  by_cases ha : a.isTime <;> by_cases hb : b.isTime <;>
    simp only [cmpTag, ha, hb, Bool.true_and, Bool.false_and, Bool.and_true,
      Bool.and_false, Bool.not_true, Bool.not_false, if_true, if_false,
      Bool.and_self, ite_true, ite_false] <;>
    first
      | exact htotal _ _
      | left; decide
      | right; decide

/-- The sorted sequence produced by `handleSave` is pairwise non-positive
under the comparator. -/
theorem handleSave_pairwise (lc : String → String → Int)
    (htrans : ∀ a b c, lc a b ≤ 0 → lc b c ≤ 0 → lc a c ≤ 0)
    (htotal : ∀ a b, lc a b ≤ 0 ∨ lc b a ≤ 0) (s : List Tag) :
    (handleSave lc s).Pairwise (fun a b => cmpTag lc a b ≤ 0) := by
  have h := @List.sorted_mergeSort Tag
    (fun a b => decide (cmpTag lc a b ≤ 0))
    (fun a b c hab hbc => by
      rw [decide_eq_true_iff] at hab hbc ⊢
      exact cmpTag_le_trans lc htrans a b c hab hbc)
    (fun a b => by
      rcases cmpTag_le_total lc htotal a b with h | h
      · simp [h]
      · simp [h]) s
  exact h.imp (fun hab => by
    rw [decide_eq_true_iff] at hab
    exact hab)

/-- `handleSave` permutes the selection. -/
theorem handleSave_perm (lc : String → String → Int) (s : List Tag) :
    (handleSave lc s).Perm s :=
  List.mergeSort_perm s _

/-- Behind the head of the saved sequence there is no time tag. -/
theorem handleSave_tail_no_time (lc : String → String → Int)
    (htrans : ∀ a b c, lc a b ≤ 0 → lc b c ≤ 0 → lc a c ≤ 0)
    (htotal : ∀ a b, lc a b ≤ 0 ∨ lc b a ≤ 0) (s : List Tag)
    (hinv : (s.filter Tag.isTime).length ≤ 1) :
    ∀ a ∈ (handleSave lc s).tail, a.isTime = false := by
  have hp := handleSave_pairwise lc htrans htotal s
  have hcount : ((handleSave lc s).filter Tag.isTime).length ≤ 1 := by
    have := (handleSave_perm lc s).countP_eq Tag.isTime
    rw [List.countP_eq_length_filter, List.countP_eq_length_filter] at this
    omega
  cases hr : handleSave lc s with
  | nil => simp
  | cons h rest =>
    rw [hr] at hp hcount
    rw [List.pairwise_cons] at hp
    intro a ha
    by_contra hat
    have hat' : a.isTime = true := by
      simpa using hat
    by_cases hh : h.isTime
    · have h2 : (2 : Nat) ≤ (List.filter Tag.isTime (h :: rest)).length := by
        rw [List.filter_cons, if_pos hh]
        have : 0 < (List.filter Tag.isTime rest).length := by
          rw [← List.countP_eq_length_filter]
          rw [List.countP_pos_iff]
          exact ⟨a, by simpa using ha, hat'⟩
        simp only [List.length_cons]
        omega
      omega
    · have hle := hp.1 a (by simpa using ha)
      have hh' : h.isTime = false := by
        simpa using hh
      rw [cmpTag, hh'] at hle
      simp [hat'] at hle

/-- **C7.**  Starting from a selection satisfying the exclusivity
invariant, the sequence handed over by the save handler is sorted: a time
tag, when present, is element 0, and the remaining elements are pairwise
non-decreasing under the locale comparison on names.  `lc` is assumed to
be a total preorder, as a collation is. -/
theorem C7_commit_sorted (lc : String → String → Int) (s : List Tag)
    (htrans : ∀ a b c, lc a b ≤ 0 → lc b c ≤ 0 → lc a c ≤ 0)
    (htotal : ∀ a b, lc a b ≤ 0 ∨ lc b a ≤ 0)
    (hinv : (s.filter Tag.isTime).length ≤ 1) :
    (∀ t ∈ s, t.isTime = true → (handleSave lc s).head? = some t) ∧
    ((handleSave lc s).tail.Pairwise fun a b => lc a.name b.name ≤ 0) := by
  have hp := handleSave_pairwise lc htrans htotal s
  have hnt := handleSave_tail_no_time lc htrans htotal s hinv
  constructor
  · intro t ht htime
    have hmem : t ∈ handleSave lc s := ((handleSave_perm lc s).mem_iff).mpr ht
    cases hr : handleSave lc s with
    | nil =>
      rw [hr] at hmem
      simp at hmem
    | cons h rest =>
      rw [hr] at hmem hnt
      rcases List.mem_cons.mp hmem with he | he
      · rw [he]
        rfl
      · have := hnt t (by simpa using he)
        rw [htime] at this
        simp at this
  · have hpt : (handleSave lc s).tail.Pairwise (fun a b => cmpTag lc a b ≤ 0) := by
      cases hr : handleSave lc s with
      | nil => simp
      | cons h rest =>
        rw [hr] at hp
        simpa using (List.pairwise_cons.mp hp).2
    refine List.Pairwise.imp_of_mem ?_ hpt
    intro a b ha hb hab
    have ha' := hnt a ha
    have hb' := hnt b hb
    rw [cmpTag, ha', hb'] at hab
    simpa using hab

/-- A concrete locale comparison for witnesses: lexicographic order. -/
theorem lcFix_le_iff (a b : String) : lcFix a b ≤ 0 ↔ a ≤ b := by
  by_cases h : a ≤ b
  · simp [lcFix, h]
  · simp [lcFix, h]

theorem lcFix_trans : ∀ a b c : String, lcFix a b ≤ 0 → lcFix b c ≤ 0 → lcFix a c ≤ 0 := by
  intro a b c hab hbc
  rw [lcFix_le_iff] at hab hbc ⊢
  exact le_trans hab hbc

theorem lcFix_total : ∀ a b : String, lcFix a b ≤ 0 ∨ lcFix b a ≤ 0 := by
  intro a b
  rw [lcFix_le_iff, lcFix_le_iff]
  exact le_total a b

/-- Witness for C7 at a concrete selection containing a time tag. -/
theorem C7_commit_sorted_witness :
    (∀ t ∈ ([{ id := "b1", name := "b" },
             { id := "time-1", name := "2024-06", isTimeTag := some true },
             { id := "a1", name := "a" }] : List Tag), t.isTime = true →
      (handleSave lcFix [{ id := "b1", name := "b" },
        { id := "time-1", name := "2024-06", isTimeTag := some true },
        { id := "a1", name := "a" }]).head? = some t) ∧
    ((handleSave lcFix [{ id := "b1", name := "b" },
        { id := "time-1", name := "2024-06", isTimeTag := some true },
        { id := "a1", name := "a" }]).tail.Pairwise
      fun a b => lcFix a.name b.name ≤ 0) :=
  C7_commit_sorted lcFix
    [{ id := "b1", name := "b" },
     { id := "time-1", name := "2024-06", isTimeTag := some true },
     { id := "a1", name := "a" }]
    lcFix_trans lcFix_total (by decide)

/-!
### Export pipeline helper lemmas
-/

theorem fsLookup_fsInsert (p v : String) (fs : List (String × String)) :
    fsLookup (fsInsert p v fs) p = some v := by
  simp [fsLookup, fsInsert]

theorem fsLookup_fsRemove (p : String) (fs : List (String × String)) :
    fsLookup (fsRemove p fs) p = none := by
  have h : (fsRemove p fs).find? (fun e => e.1 == p) = none := by
    rw [List.find?_eq_none]
    intro x hx
    rw [fsRemove, List.mem_filter] at hx
    simpa using hx.2
  simp [fsLookup, h]

/-- Effect of the per-image block on the counters, the pushed asset, and
the parts of the state it never touches (batches, album); requires the
cleanup deletes to succeed. -/
theorem processImage_spec (env : Env) (img : ImageItem) (st : MState)
    (hdel : ∀ p, env.deleteOk p = true) :
    (processImage env img st).1.processedCount
        = st.processedCount + (if imgOk env img then 1 else 0) ∧
    ((processImage env img st).2.toList.map Asset.content)
        = (if imgOk env img then [img.uri] else []) ∧
    (processImage env img st).1.batches = st.batches ∧
    (processImage env img st).1.album = st.album ∧
    (processImage env img st).1.assets
        = st.assets ++ (processImage env img st).2.toList := by
  cases hc : env.copyOk img.uri with
  | false => simp [processImage, hc, imgOk]
  | true =>
    cases hcr : env.createOk img.uri with
    | false => simp [processImage, hc, hcr, imgOk]
    | true =>
      have hd := hdel (cacheDirectory
        ++ (generateUniqueFileName img.tags st.usedNames env.now).1 ++ ".jpg")
      simp [processImage, hc, hcr, hd, imgOk, fsLookup_fsInsert]

/-- Effect of one batch's staging pass. -/
theorem stageBatch_spec (env : Env) (hdel : ∀ p, env.deleteOk p = true) :
    ∀ (batch : List ImageItem) (st : MState),
      (stageBatch env batch st).1.processedCount
          = st.processedCount + batch.countP (imgOk env) ∧
      (stageBatch env batch st).2.map Asset.content
          = (batch.filter (imgOk env)).map ImageItem.uri ∧
      (stageBatch env batch st).1.batches = st.batches ∧
      (stageBatch env batch st).1.album = st.album ∧
      (stageBatch env batch st).1.assets.map Asset.content
          = st.assets.map Asset.content
            ++ (batch.filter (imgOk env)).map ImageItem.uri ∧
      ∃ extra, (stageBatch env batch st).1.assets = st.assets ++ extra := by
  intro batch
  induction batch with
  | nil =>
    intro st
    simp [stageBatch]
  | cons img rest ih =>
    intro st
    obtain ⟨h1, h2, h3, h4, h5⟩ := processImage_spec env img st hdel
    obtain ⟨g1, g2, g3, g4, g5, gex, g6⟩ := ih (processImage env img st).1
    have hsb : stageBatch env (img :: rest) st
        = ((stageBatch env rest (processImage env img st).1).1,
           (processImage env img st).2.toList
             ++ (stageBatch env rest (processImage env img st).1).2) := rfl
    rw [hsb]
    refine ⟨?_, ?_, ?_, ?_, ?_, ?_⟩
    · rw [g1, h1, List.countP_cons]
      omega
    · rw [List.map_append, h2, g2, List.filter_cons]
      cases hok : imgOk env img <;> simp [hok]
    · rw [g3, h3]
    · rw [g4, h4]
    · rw [g5, h5, List.map_append, h2, List.filter_cons]
      cases hok : imgOk env img <;> simp [hok]
    · exact ⟨(processImage env img st).2.toList ++ gex, by
        rw [g6, h5, List.append_assoc]⟩

/-- Effect of one iteration of the batch loop. -/
theorem processBatch_spec (env : Env) (hdel : ∀ p, env.deleteOk p = true)
    (batch : List ImageItem) (st : MState) :
    (processBatch env batch st).processedCount
        = st.processedCount + batch.countP (imgOk env) ∧
    (processBatch env batch st).batches
        = st.batches ++ [(stageBatch env batch st).2] ∧
    (stageBatch env batch st).2.map Asset.content
        = (batch.filter (imgOk env)).map ImageItem.uri ∧
    (processBatch env batch st).assets.map Asset.content
        = st.assets.map Asset.content
          ++ (batch.filter (imgOk env)).map ImageItem.uri ∧
    (∃ extra, (processBatch env batch st).assets = st.assets ++ extra) ∧
    (∀ x xs, st.album = some (x :: xs) →
      ∃ ys, (processBatch env batch st).album = some (x :: ys)) := by
  obtain ⟨h1, h2, h3, h4, h5, hex, h6⟩ := stageBatch_spec env hdel batch st
  by_cases he : (stageBatch env batch st).2.isEmpty
  · have hpb : processBatch env batch st
        = { (stageBatch env batch st).1 with
            batches := (stageBatch env batch st).1.batches
              ++ [(stageBatch env batch st).2] } := by
      simp [processBatch, he]
    rw [hpb]
    exact ⟨h1, by rw [h3], h2, h5, ⟨hex, h6⟩,
      fun x xs hx => ⟨xs, by rw [h4, hx]⟩⟩
  · by_cases ha : env.addOk (stageBatch env batch st).2
    · have hpb : processBatch env batch st
          = { (stageBatch env batch st).1 with
              batches := (stageBatch env batch st).1.batches
                ++ [(stageBatch env batch st).2],
              album := ((stageBatch env batch st).1.album).map
                (· ++ (stageBatch env batch st).2) } := by
        simp [processBatch, he, ha]
      rw [hpb]
      refine ⟨h1, by rw [h3], h2, h5, ⟨hex, h6⟩, fun x xs hx => ?_⟩
      refine ⟨xs ++ (stageBatch env batch st).2, ?_⟩
      simp only [h4, hx, Option.map_some']
      rw [List.cons_append]
    · have hpb : processBatch env batch st
          = { (stageBatch env batch st).1 with
              batches := (stageBatch env batch st).1.batches
                ++ [(stageBatch env batch st).2] } := by
        simp [processBatch, he, ha]
      rw [hpb]
      exact ⟨h1, by rw [h3], h2, h5, ⟨hex, h6⟩,
        fun x xs hx => ⟨xs, by rw [h4, hx]⟩⟩

/-- Effect of the whole batch loop over a list of batches. -/
theorem foldBatches_spec (env : Env) (hdel : ∀ p, env.deleteOk p = true) :
    ∀ (bs : List (List ImageItem)) (st : MState),
      (bs.foldl (fun s b => processBatch env b s) st).processedCount
          = st.processedCount + (bs.flatten).countP (imgOk env) ∧
      (bs.foldl (fun s b => processBatch env b s) st).batches.map
          (List.map Asset.content)
        = st.batches.map (List.map Asset.content)
          ++ bs.map (fun b => (b.filter (imgOk env)).map ImageItem.uri) ∧
      (bs.foldl (fun s b => processBatch env b s) st).assets.map Asset.content
        = st.assets.map Asset.content
          ++ ((bs.flatten).filter (imgOk env)).map ImageItem.uri ∧
      (∃ extra, (bs.foldl (fun s b => processBatch env b s) st).assets
          = st.assets ++ extra) ∧
      (∀ x xs, st.album = some (x :: xs) →
        ∃ ys, (bs.foldl (fun s b => processBatch env b s) st).album
            = some (x :: ys)) := by
  intro bs
  induction bs with
  | nil =>
    intro st
    exact ⟨by simp, by simp, by simp, ⟨[], by simp⟩, fun x xs hx => ⟨xs, by simpa using hx⟩⟩
  | cons b rest ih =>
    intro st
    obtain ⟨h1, h2, h3, h4, hex, h5⟩ := processBatch_spec env hdel b st
    obtain ⟨g1, g2, g3, g4, g5⟩ := ih (processBatch env b st)
    have hfl : (b :: rest).foldl (fun s b => processBatch env b s) st
        = rest.foldl (fun s b => processBatch env b s) (processBatch env b st) := rfl
    rw [hfl]
    refine ⟨?_, ?_, ?_, ?_, ?_⟩
    · rw [g1, h1, List.flatten_cons, List.countP_append]
      omega
    · rw [g2, h2, List.map_append, List.map_cons, List.map_cons, h3]
      simp
    · rw [g3, h4, List.flatten_cons, List.filter_append, List.map_append,
        List.append_assoc]
    · obtain ⟨e1, he1⟩ := g4
      obtain ⟨e2, he2⟩ := hex
      exact ⟨e2 ++ e1, by rw [he1, he2, List.append_assoc]⟩
    · intro x xs hx
      obtain ⟨ys, hy⟩ := h5 x xs hx
      exact g5 x ys hy

/-- Concatenating the produced chunks gives back the original list. -/
theorem chunksOfAux_flatten (k : Nat) (hk : k ≠ 0) :
    ∀ (fuel : Nat) (l : List α), l.length ≤ fuel →
      (chunksOfAux k fuel l).flatten = l := by
  intro fuel
  induction fuel with
  | zero =>
    intro l hl
    have : l = [] := List.length_eq_zero.mp (Nat.le_zero.mp hl)
    subst this
    simp [chunksOfAux]
  | succ fuel ih =>
    intro l hl
    cases l with
    | nil => simp [chunksOfAux]
    | cons x xs =>
      have hrec := ih ((x :: xs).drop k) (by
        rw [List.length_drop]
        simp only [List.length_cons] at hl ⊢
        omega)
      simp only [chunksOfAux, List.flatten_cons, hrec]
      exact List.take_append_drop k (x :: xs)

theorem chunksOf_flatten (k : Nat) (hk : k ≠ 0) (l : List α) :
    (chunksOf k l).flatten = l :=
  chunksOfAux_flatten k hk l.length l (Nat.le_refl _)

/-- Summary of `runBatches` in terms of the input images. -/
theorem runBatches_spec (env : Env) (hdel : ∀ p, env.deleteOk p = true)
    (images : List ImageItem) (st : MState) :
    (runBatches env images st).status = .completed ∧
    (runBatches env images st).exportedCount
        = st.processedCount + images.countP (imgOk env) ∧
    (runBatches env images st).totalCount = images.length ∧
    (runBatches env images st).final.batches.map (List.map Asset.content)
        = st.batches.map (List.map Asset.content)
          ++ (chunksOf 10 images).map
              (fun b => (b.filter (imgOk env)).map ImageItem.uri) ∧
    (runBatches env images st).final.assets.map Asset.content
        = st.assets.map Asset.content
          ++ (images.filter (imgOk env)).map ImageItem.uri ∧
    (∃ extra, (runBatches env images st).final.assets = st.assets ++ extra) ∧
    (∀ x xs, st.album = some (x :: xs) →
      ∃ ys, (runBatches env images st).final.album = some (x :: ys)) := by
  obtain ⟨h1, h2, h3, h4, h5⟩ := foldBatches_spec env hdel (chunksOf 10 images) st
  rw [chunksOf_flatten 10 (by decide) images] at h1 h3
  exact ⟨rfl, h1, rfl, h2, h3, h4, h5⟩

/-- The per-image block never touches the album, whether or not its
filesystem and library calls succeed. -/
theorem processImage_album (env : Env) (img : ImageItem) (st : MState) :
    (processImage env img st).1.album = st.album := by
  cases hc : env.copyOk img.uri <;>
    cases hcr : env.createOk img.uri <;>
    cases hd : env.deleteOk (cacheDirectory
      ++ (generateUniqueFileName img.tags st.usedNames env.now).1 ++ ".jpg") <;>
    simp [processImage, hc, hcr, hd]

/-- The staging pass never touches the album. -/
theorem stageBatch_album (env : Env) :
    ∀ (batch : List ImageItem) (st : MState),
      (stageBatch env batch st).1.album = st.album := by
  intro batch
  induction batch with
  | nil =>
    intro st
    rfl
  | cons img rest ih =>
    intro st
    have hh : (stageBatch env (img :: rest) st).1
        = (stageBatch env rest (processImage env img st).1).1 := rfl
    rw [hh, ih, processImage_album]

/-- One batch-loop iteration preserves the head of the album contents. -/
theorem processBatch_album_head (env : Env) (batch : List ImageItem)
    (st : MState) (x : Asset) (xs : List Asset) (hx : st.album = some (x :: xs)) :
    ∃ ys, (processBatch env batch st).album = some (x :: ys) := by
  have hsb := stageBatch_album env batch st
  by_cases he : (stageBatch env batch st).2.isEmpty
  · exact ⟨xs, by simp [processBatch, he, hsb, hx]⟩
  · by_cases ha : env.addOk (stageBatch env batch st).2
    · refine ⟨xs ++ (stageBatch env batch st).2, ?_⟩
      simp only [processBatch, he, ha, if_false, if_true, Bool.false_eq_true,
        ite_false, ite_true, hsb, hx, Option.map_some']
      rw [List.cons_append]
    · exact ⟨xs, by simp [processBatch, he, ha, hsb, hx]⟩

/-- The whole batch loop preserves the head of the album contents. -/
theorem foldBatches_album_head (env : Env) :
    ∀ (bs : List (List ImageItem)) (st : MState) (x : Asset) (xs : List Asset),
      st.album = some (x :: xs) →
      ∃ ys, (bs.foldl (fun s b => processBatch env b s) st).album
          = some (x :: ys) := by
  intro bs
  induction bs with
  | nil =>
    intro st x xs hx
    exact ⟨xs, hx⟩
  | cons b rest ih =>
    intro st x xs hx
    obtain ⟨ys, hy⟩ := processBatch_album_head env b st x xs hx
    exact ih (processBatch env b st) x ys hy

/-!
### C5 — per-item failure isolation
-/

/-- **C5.**  With the album already present and the cleanup deletes
succeeding, a staging or asset-creation failure of one image is absorbed
by the per-image catch: every batch's asset list consists of exactly its
successfully processed images in order, all other images of every batch
are still processed, and the only trace of failure is the discrepancy
between `exportedCount` (the successful images) and `totalCount` (all
images). -/
theorem C5_per_item_failure_isolated (env : Env) (images : List ImageItem)
    (hperm : env.permGranted = true) (halbum : env.albumExists = true)
    (hdel : ∀ p, env.deleteOk p = true) (hne : images ≠ []) :
    (exportImages env images).status = .completed ∧
    (exportImages env images).exportedCount = images.countP (imgOk env) ∧
    (exportImages env images).totalCount = images.length ∧
    (exportImages env images).final.batches.map (List.map Asset.content)
        = (chunksOf 10 images).map
            (fun b => (b.filter (imgOk env)).map ImageItem.uri) := by
  have hie : images.isEmpty = false := by
    cases images with
    | nil => exact absurd rfl hne
    | cons _ _ => rfl
  have he : exportImages env images = runBatches env images (initState env) := by
    simp [exportImages, hie, hperm, halbum]
  obtain ⟨h1, h2, h3, h4, _⟩ :=
    runBatches_spec env hdel images (initState env)
  rw [he]
  refine ⟨h1, ?_, h3, ?_⟩
  · rw [h2]
    simp [initState]
  · rw [h4]
    simp [initState, halbum]

/-- Witness for C5: the middle image of three fails to stage, the other
two are exported and counted. -/
theorem C5_per_item_failure_isolated_witness :
    (exportImages { envAllOk with copyOk := fun u => u != "b" }
        [{ id := "1", uri := "a", tags := [momTag] },
         { id := "2", uri := "b", tags := [] },
         { id := "3", uri := "c", tags := [momTag] }]).status = .completed ∧
    (exportImages { envAllOk with copyOk := fun u => u != "b" }
        [{ id := "1", uri := "a", tags := [momTag] },
         { id := "2", uri := "b", tags := [] },
         { id := "3", uri := "c", tags := [momTag] }]).exportedCount
      = ([{ id := "1", uri := "a", tags := [momTag] },
          { id := "2", uri := "b", tags := [] },
          { id := "3", uri := "c", tags := [momTag] }] : List ImageItem).countP
          (imgOk { envAllOk with copyOk := fun u => u != "b" }) ∧
    (exportImages { envAllOk with copyOk := fun u => u != "b" }
        [{ id := "1", uri := "a", tags := [momTag] },
         { id := "2", uri := "b", tags := [] },
         { id := "3", uri := "c", tags := [momTag] }]).totalCount
      = ([{ id := "1", uri := "a", tags := [momTag] },
          { id := "2", uri := "b", tags := [] },
          { id := "3", uri := "c", tags := [momTag] }] : List ImageItem).length ∧
    (exportImages { envAllOk with copyOk := fun u => u != "b" }
        [{ id := "1", uri := "a", tags := [momTag] },
         { id := "2", uri := "b", tags := [] },
         { id := "3", uri := "c", tags := [momTag] }]).final.batches.map
          (List.map Asset.content)
      = (chunksOf 10
          ([{ id := "1", uri := "a", tags := [momTag] },
            { id := "2", uri := "b", tags := [] },
            { id := "3", uri := "c", tags := [momTag] }] : List ImageItem)).map
          (fun b => (b.filter (imgOk { envAllOk with copyOk := fun u => u != "b" })).map
            ImageItem.uri) :=
  C5_per_item_failure_isolated { envAllOk with copyOk := fun u => u != "b" }
    [{ id := "1", uri := "a", tags := [momTag] },
     { id := "2", uri := "b", tags := [] },
     { id := "3", uri := "c", tags := [momTag] }]
    rfl rfl (fun _ => rfl) (by decide)

/-!
### C3 — staging cleanup on failure paths
-/

/-- **C3 counterexample.**  When asset creation throws, the per-image
catch skips the `deleteAsync` cleanup and the staged temporary file is
left behind in the cache at the end of the export. -/
theorem C3_cleanup_counterexample :
    (exportImages { envAllOk with createOk := fun _ => false }
        [{ id := "1", uri := "uriA", tags := [momTag] }]).status = .completed ∧
    (exportImages { envAllOk with createOk := fun _ => false }
        [{ id := "1", uri := "uriA", tags := [momTag] }]).final.fs
      = [("cache/Mom.jpg", "uriA")] := by
  decide

/-- **C3 (amended).**  The temporary staging file is released only on the
path where copy, asset creation and deletion all succeed; if asset
creation throws after a successful copy, the temporary file stays in the
cache. -/
theorem C3_cleanup_only_on_success (env : Env) (img : ImageItem) (st : MState) :
    (env.copyOk img.uri = true → env.createOk img.uri = true →
      env.deleteOk (cacheDirectory
        ++ (generateUniqueFileName img.tags st.usedNames env.now).1 ++ ".jpg") = true →
      fsLookup (processImage env img st).1.fs
        (cacheDirectory
          ++ (generateUniqueFileName img.tags st.usedNames env.now).1 ++ ".jpg")
        = none) ∧
    (env.copyOk img.uri = true → env.createOk img.uri = false →
      fsLookup (processImage env img st).1.fs
        (cacheDirectory
          ++ (generateUniqueFileName img.tags st.usedNames env.now).1 ++ ".jpg")
        = some img.uri) := by
  constructor
  · intro h1 h2 h3
    simp [processImage, h1, h2, h3, fsLookup_fsRemove]
  · intro h1 h2
    simp [processImage, h1, h2, fsLookup_fsInsert]

/-- Witness for the amended C3: creation fails and the staged file remains. -/
theorem C3_cleanup_only_on_success_witness :
    fsLookup (processImage { envAllOk with createOk := fun _ => false }
        { id := "1", uri := "uriA", tags := [momTag] }
        (initState { envAllOk with createOk := fun _ => false })).1.fs
      (cacheDirectory
        ++ (generateUniqueFileName
              ({ id := "1", uri := "uriA", tags := [momTag] } : ImageItem).tags
              (initState { envAllOk with createOk := fun _ => false }).usedNames
              ({ envAllOk with createOk := fun _ => false } : Env).now).1 ++ ".jpg")
      = some ({ id := "1", uri := "uriA", tags := [momTag] } : ImageItem).uri :=
  (C3_cleanup_only_on_success { envAllOk with createOk := fun _ => false }
    { id := "1", uri := "uriA", tags := [momTag] }
    (initState { envAllOk with createOk := fun _ => false })).2 rfl rfl

/-!
### C4 — lazy album creation is seeded only by `images[0]`
-/

/-- **C4 counterexample.**  The album is absent, staging of the first
image fails but the second image is perfectly stageable — the claim would
have the album seeded by the second image, yet the export aborts with the
album-creation error and no album is created. -/
theorem C4_seed_counterexample :
    (exportImages { envAllOk with albumExists := false, copyOk := fun u => u != "a" }
        [{ id := "1", uri := "a", tags := [] },
         { id := "2", uri := "b", tags := [] }]).status = .albumFailed ∧
    (exportImages { envAllOk with albumExists := false, copyOk := fun u => u != "a" }
        [{ id := "1", uri := "a", tags := [] },
         { id := "2", uri := "b", tags := [] }]).final.album = none ∧
    ({ envAllOk with albumExists := false, copyOk := fun u => u != "a" } : Env).copyOk "b"
      = true ∧
    ({ envAllOk with albumExists := false, copyOk := fun u => u != "a" } : Env).createOk "b"
      = true := by
  decide

/-- **C4 (amended).**  When the album is absent, the pipeline uses the
first image of the sequence as its only seed candidate: if its staging,
asset creation, album creation or seed cleanup fails, the whole export
aborts with the album-creation error (regardless of whether later images
could be staged); if those steps succeed, the album is created seeded with
the first image's content and the export completes. -/
theorem C4_album_seeded_by_first (env : Env) (img0 : ImageItem)
    (rest : List ImageItem) (hperm : env.permGranted = true)
    (halbum : env.albumExists = false) :
    (env.copyOk img0.uri = true → env.createOk img0.uri = true →
      env.albumCreateOk = true →
      env.deleteOk (cacheDirectory ++ "album_init.jpg") = true →
      (exportImages env (img0 :: rest)).status = .completed ∧
      ∃ ys, (exportImages env (img0 :: rest)).final.album
          = some ({ path := cacheDirectory ++ "album_init.jpg",
                    content := img0.uri } :: ys)) ∧
    ((env.copyOk img0.uri = false ∨ env.createOk img0.uri = false ∨
        env.albumCreateOk = false ∨
        env.deleteOk (cacheDirectory ++ "album_init.jpg") = false) →
      (exportImages env (img0 :: rest)).status = .albumFailed) := by
  constructor
  · intro h1 h2 h3 h4
    have hseed : seedAlbum env img0.uri (initState env)
        = ({ fs := fsRemove (cacheDirectory ++ "album_init.jpg")
                (fsInsert (cacheDirectory ++ "album_init.jpg") img0.uri []),
             assets := [{ path := cacheDirectory ++ "album_init.jpg",
                          content := img0.uri }],
             album := some [{ path := cacheDirectory ++ "album_init.jpg",
                              content := img0.uri }],
             usedNames := [], processedCount := 0, batches := [] }, true) := by
      simp [seedAlbum, h1, h2, h3, h4, initState, halbum, fsLookup_fsInsert]
    have he : exportImages env (img0 :: rest)
        = runBatches env (img0 :: rest)
            (seedAlbum env img0.uri (initState env)).1 := by
      simp [exportImages, hperm, halbum, hseed]
    rw [he, hseed]
    refine ⟨rfl, ?_⟩
    obtain ⟨ys, hy⟩ := foldBatches_album_head env (chunksOf 10 (img0 :: rest))
      { fs := fsRemove (cacheDirectory ++ "album_init.jpg")
          (fsInsert (cacheDirectory ++ "album_init.jpg") img0.uri []),
        assets := [{ path := cacheDirectory ++ "album_init.jpg",
                     content := img0.uri }],
        album := some [{ path := cacheDirectory ++ "album_init.jpg",
                         content := img0.uri }],
        usedNames := [], processedCount := 0, batches := [] }
      { path := cacheDirectory ++ "album_init.jpg", content := img0.uri } [] rfl
    exact ⟨ys, hy⟩
  · intro hfail
    have hflag : (seedAlbum env img0.uri (initState env)).2 = false := by
      rcases hfail with h | h | h | h <;>
        · cases h1 : env.copyOk img0.uri <;>
          cases h2 : env.createOk img0.uri <;>
          cases h3 : env.albumCreateOk <;>
          cases h4 : env.deleteOk (cacheDirectory ++ "album_init.jpg") <;>
            simp_all [seedAlbum]
    simp [exportImages, hperm, halbum, hflag]

/-- Witness for the amended C4: the seed steps succeed and the album is
created with the first image's content at its head. -/
theorem C4_album_seeded_by_first_witness :
    (exportImages { envAllOk with albumExists := false }
        ([{ id := "1", uri := "a", tags := [] }] : List ImageItem)).status
      = .completed ∧
    ∃ ys, (exportImages { envAllOk with albumExists := false }
        ([{ id := "1", uri := "a", tags := [] }] : List ImageItem)).final.album
        = some ({ path := cacheDirectory ++ "album_init.jpg",
                  content := ({ id := "1", uri := "a", tags := [] } : ImageItem).uri } :: ys) :=
  (C4_album_seeded_by_first { envAllOk with albumExists := false }
    { id := "1", uri := "a", tags := [] } [] rfl rfl).1 rfl rfl rfl rfl

/-!
### C10 — the album seed duplicates the first image
-/

/-- **C10.**  When the album is absent and every collaborator call
succeeds, the pipeline stages the first image an extra time as the album
seed (under the fixed name `album_init.jpg`, not a generator name), does
not count that extra copy in `exportedCount`, and then processes the first
image again in the first batch, so its content enters the photo library
twice in one export. -/
theorem C10_seed_duplicates_first_image (env : Env) (img0 : ImageItem)
    (rest : List ImageItem) (hperm : env.permGranted = true)
    (halbum : env.albumExists = false)
    (hcopy : ∀ u, env.copyOk u = true) (hcreate : ∀ u, env.createOk u = true)
    (hdel : ∀ p, env.deleteOk p = true) (halbumc : env.albumCreateOk = true) :
    (exportImages env (img0 :: rest)).status = .completed ∧
    (exportImages env (img0 :: rest)).exportedCount = (img0 :: rest).length ∧
    (exportImages env (img0 :: rest)).totalCount = (img0 :: rest).length ∧
    (exportImages env (img0 :: rest)).final.assets.map Asset.content
        = img0.uri :: (img0 :: rest).map ImageItem.uri ∧
    ((exportImages env (img0 :: rest)).final.assets.head?.map Asset.path)
        = some (cacheDirectory ++ "album_init.jpg") ∧
    2 ≤ ((exportImages env (img0 :: rest)).final.assets.map Asset.content).count
          img0.uri := by
  have hseed : seedAlbum env img0.uri (initState env)
      = ({ fs := fsRemove (cacheDirectory ++ "album_init.jpg")
              (fsInsert (cacheDirectory ++ "album_init.jpg") img0.uri []),
           assets := [{ path := cacheDirectory ++ "album_init.jpg",
                        content := img0.uri }],
           album := some [{ path := cacheDirectory ++ "album_init.jpg",
                            content := img0.uri }],
           usedNames := [], processedCount := 0, batches := [] }, true) := by
    simp [seedAlbum, hcopy img0.uri, hcreate img0.uri, halbumc,
      hdel (cacheDirectory ++ "album_init.jpg"), initState, halbum,
      fsLookup_fsInsert]
  have he : exportImages env (img0 :: rest)
      = runBatches env (img0 :: rest)
          (seedAlbum env img0.uri (initState env)).1 := by
    simp [exportImages, hperm, halbum, hseed]
  have hallok : ∀ img ∈ (img0 :: rest), imgOk env img = true := by
    intro img _
    simp [imgOk, hcopy img.uri, hcreate img.uri]
  have hcount : (img0 :: rest).countP (imgOk env) = (img0 :: rest).length := by
    rw [List.countP_eq_length]
    exact hallok
  have hfilter : (img0 :: rest).filter (imgOk env) = img0 :: rest :=
    List.filter_eq_self.mpr hallok
  obtain ⟨h1, h2, h3, _, h5, hex, _⟩ :=
    runBatches_spec env hdel (img0 :: rest)
      (seedAlbum env img0.uri (initState env)).1
  rw [he]
  refine ⟨h1, ?_, h3, ?_, ?_, ?_⟩
  · rw [h2, hseed, hcount]
    simp
  · rw [h5, hseed, hfilter]
    simp
  · obtain ⟨extra, hx⟩ := hex
    rw [hx, hseed]
    rfl
  · rw [h5, hseed, hfilter]
    simp [List.count_cons]

/-- Witness for C10 with two images: the first image's content enters the
library twice. -/
theorem C10_seed_duplicates_first_image_witness :
    (exportImages { envAllOk with albumExists := false }
        (({ id := "1", uri := "a", tags := [momTag] } : ImageItem)
          :: [{ id := "2", uri := "b", tags := [] }])).status = .completed ∧
    (exportImages { envAllOk with albumExists := false }
        (({ id := "1", uri := "a", tags := [momTag] } : ImageItem)
          :: [{ id := "2", uri := "b", tags := [] }])).exportedCount
      = (({ id := "1", uri := "a", tags := [momTag] } : ImageItem)
          :: [{ id := "2", uri := "b", tags := [] }]).length ∧
    (exportImages { envAllOk with albumExists := false }
        (({ id := "1", uri := "a", tags := [momTag] } : ImageItem)
          :: [{ id := "2", uri := "b", tags := [] }])).totalCount
      = (({ id := "1", uri := "a", tags := [momTag] } : ImageItem)
          :: [{ id := "2", uri := "b", tags := [] }]).length ∧
    (exportImages { envAllOk with albumExists := false }
        (({ id := "1", uri := "a", tags := [momTag] } : ImageItem)
          :: [{ id := "2", uri := "b", tags := [] }])).final.assets.map Asset.content
      = ({ id := "1", uri := "a", tags := [momTag] } : ImageItem).uri
          :: ({ id := "1", uri := "a", tags := [momTag] }
              :: [{ id := "2", uri := "b", tags := [] }]).map ImageItem.uri ∧
    ((exportImages { envAllOk with albumExists := false }
        (({ id := "1", uri := "a", tags := [momTag] } : ImageItem)
          :: [{ id := "2", uri := "b", tags := [] }])).final.assets.head?.map
        Asset.path)
      = some (cacheDirectory ++ "album_init.jpg") ∧
    2 ≤ ((exportImages { envAllOk with albumExists := false }
        (({ id := "1", uri := "a", tags := [momTag] } : ImageItem)
          :: [{ id := "2", uri := "b", tags := [] }])).final.assets.map
          Asset.content).count
          ({ id := "1", uri := "a", tags := [momTag] } : ImageItem).uri :=
  C10_seed_duplicates_first_image { envAllOk with albumExists := false }
    { id := "1", uri := "a", tags := [momTag] }
    [{ id := "2", uri := "b", tags := [] }]
    rfl rfl (fun _ => rfl) (fun _ => rfl) (fun _ => rfl) rfl

end PicTaging
